import Mathlib

/-!
# Verification of the CloudKnit reconciliation bookkeeping engine

Shallow embedding of `src/api/src/environment/environment.controller.ts`
(the `EnvironmentController` and `ReconciliationService` classes): the
spec-diff engine of `saveOrUpdate`, the run orchestrator `createEnvRecon`,
the stale-run sweeper (`getSkippedEnvironments` / `getSkippedComponents`
plus the two bulk updates), the cost aggregator `updateCost`, and the
latest-run resolver `getLatestCompReconcile`.

Modelling conventions:
- ids and datetimes are `Nat` (a nullable datetime column is `Option Nat`;
  the store orders `NULL` before every concrete value, so descending order
  puts `none` last);
- monetary amounts are `ℚ`;
- TypeORM relations are embedded as scalar foreign keys (`componentId`,
  `envReconId`, ...), so the entity graph is acyclic;
- a TypeORM `find` is a `List.filter` over the table contents, and `save`
  of already-persisted entities replaces the row with the same primary key;
- `In xs` is list membership, `Like 'skipped%'` is a string-prefix test.
-/

/-- One component entry of an incoming environment spec
(`EnvSpecComponentDto`): a name plus arbitrary configuration payload. -/
structure EnvSpecComponentDto where
  name : String
  config : String
deriving Repr, DecidableEq

/-- A `ComponentReconcile` row: one attempt to converge a single component,
scoped to one environment reconciliation.  Relations (`component`,
`environmentReconcile`, `organization`) are embedded as ids. -/
structure ComponentReconcile where
  reconcileId : Nat
  componentId : Nat
  envReconId : Nat
  orgId : Nat
  status : String
  startDateTime : Option Nat
  endDateTime : Option Nat
  estimatedCost : ℚ
  isSkipped : Option Bool
deriving Repr, DecidableEq

/-- A `Component` row: a unit belonging to one environment, with a
soft-delete flag and a reference to its latest component reconciliation. -/
structure Component where
  id : Nat
  name : String
  isDeleted : Bool
  latestCompRecon : Option ComponentReconcile
deriving Repr, DecidableEq

/-- An `EnvironmentReconcile` row: one attempt to converge an environment,
with a `dag` spec snapshot and an (optionally loaded) collection of child
component reconciliations. -/
structure EnvironmentReconcile where
  reconcileId : Nat
  envId : Nat
  teamId : Nat
  orgId : Nat
  status : String
  dag : List EnvSpecComponentDto
  startDateTime : Option Nat
  endDateTime : Option Nat
  errorMessage : Option String
  gitSha : String
  estimatedCost : ℚ
  componentReconciles : Option (List ComponentReconcile)
deriving Repr, DecidableEq

/-- An `Environment` row with its components loaded. -/
structure Environment where
  id : Nat
  name : String
  dag : List EnvSpecComponentDto
  isDeleted : Bool
  components : List Component
  latestEnvRecon : Option EnvironmentReconcile
deriving Repr, DecidableEq

/-! ## Diff Engine (`saveOrUpdate`, controller lines 62–85) -/

/-- Model of `saveOrUpdate`: `incoming.filter((inc) => !currentComps.find((comp) =>
comp.name === inc.name))` — the incoming specs with no stored component of
the same name, in incoming order. -/
def newComponents (currentComps : List Component)
    (incoming : List EnvSpecComponentDto) : List EnvSpecComponentDto :=
  incoming.filter fun inc =>
    (currentComps.find? fun comp => comp.name == inc.name).isNone

/-- The `for (const comp of currentComps)` loop of `saveOrUpdate`: walks the
stored components in stored order, pushing a component with no same-named
incoming spec onto `missingComponents` and otherwise pushing the matched
incoming spec onto `existingComponents`.  Returns
`(missingComponents, existingComponents)`. -/
def splitCurrent (incoming : List EnvSpecComponentDto) :
    List Component → List Component × List EnvSpecComponentDto
  | [] => ([], [])
  | comp :: rest =>
    let tail := splitCurrent incoming rest
    match incoming.find? fun i => comp.name == i.name with
    | none => (comp :: tail.1, tail.2)
    | some found => (tail.1, found :: tail.2)

/-- The diff plan produced by `saveOrUpdate`: components to create, stored
components to soft-delete, and the merged dag written back to the
environment. -/
structure DiffPlan where
  toCreate : List EnvSpecComponentDto
  toDelete : List Component
  mergedDag : List EnvSpecComponentDto
deriving Repr, DecidableEq

/-- The pure diff computation of `saveOrUpdate` (controller lines 62–85):
`toCreate = newComponents`, `toDelete = missingComponents`, and
`dag = [].concat(existingComponents).concat(newComponents)`. -/
def planDiff (currentComps : List Component)
    (incoming : List EnvSpecComponentDto) : DiffPlan :=
  let split := splitCurrent incoming currentComps
  { toCreate := newComponents currentComps incoming
    toDelete := split.1
    mergedDag := split.2 ++ newComponents currentComps incoming }

/-- Applying a diff plan: the merged dag becomes the stored component set
(`batchCreate` stores each new spec's name as a component row; the matched
specs already have rows).  A stored row carries the spec's name. -/
def specToComponent (dto : EnvSpecComponentDto) : Component :=
  { id := 0, name := dto.name, isDeleted := false, latestCompRecon := none }

/-! ## Run Orchestrator (`createEnvRecon`, controller lines 141–178, and
`ReconciliationService.createEnvRecon` / `createCompRecon`) -/

/-- The `CreateEnvironmentReconciliationDto` shape. -/
structure CreateEnvironmentReconciliationDto where
  components : List EnvSpecComponentDto
  name : String
  startDateTime : Option Nat
  teamName : String
  errorMessage : Option String
deriving Repr, DecidableEq

/-- The `CreateComponentReconciliationDto` shape: the orchestrator fills only
`status`, `name` and `envReconcileId`, leaving `startDateTime` unset. -/
structure CreateComponentReconciliationDto where
  status : Option String
  name : String
  envReconcileId : Nat
  startDateTime : Option Nat
deriving Repr, DecidableEq

/-- JavaScript's `a || b` on an optional string: `b` when `a` is
missing or empty (falsy). -/
def jsOrString : Option String → String → String
  | none, d => d
  | some s, d => if s == "" then d else s

namespace ReconciliationService

/-- Model of `ReconciliationService.createEnvRecon` (lines 417–433): saves a fresh
`EnvironmentReconcile` with `status = 'initializing'`, the dto's
`startDateTime` and `components` snapshot, empty `gitSha`, and
`errorMessage || null`.  The store-assigned primary key is passed in as
`rid`; `estimatedCost` and `endDateTime` take their column defaults. -/
def createEnvRecon (rid orgId teamId : Nat) (env : Environment)
    (dto : CreateEnvironmentReconciliationDto) : EnvironmentReconcile :=
  { reconcileId := rid
    envId := env.id
    teamId := teamId
    orgId := orgId
    status := "initializing"
    dag := dto.components
    startDateTime := dto.startDateTime
    endDateTime := none
    errorMessage := dto.errorMessage
    gitSha := ""
    estimatedCost := 0
    componentReconciles := none }

/-- Model of `ReconciliationService.createCompRecon` (lines 574–587): saves a fresh
`ComponentReconcile` linked to the component and the environment
reconciliation, with `status = createComp.status || 'initializing'` and the
dto's `startDateTime` stored verbatim.  `rid` is the store-assigned key;
`endDateTime`, `estimatedCost` and `isSkipped` take their column
defaults. -/
def createCompRecon (rid orgId : Nat) (envRecon : EnvironmentReconcile)
    (comp : Component) (dto : CreateComponentReconciliationDto) :
    ComponentReconcile :=
  { reconcileId := rid
    componentId := comp.id
    envReconId := envRecon.reconcileId
    orgId := orgId
    status := jsOrString dto.status "initializing"
    startDateTime := dto.startDateTime
    endDateTime := none
    estimatedCost := 0
    isSkipped := none }

end ReconciliationService

/-- Result of one orchestrated environment run: the parent record, the
child component-reconciliation records that were persisted, and the
environment's component rows after the `latestCompRecon` updates. -/
structure EnvReconRunResult where
  envRecon : EnvironmentReconcile
  compRecons : List ComponentReconcile
  components : List Component
deriving Repr, DecidableEq

namespace EnvironmentController

/-- The per-component sub-creation of the orchestrator's fan-out: a
`ComponentReconcile` in `waiting_for_parent` linked to the new parent run
(the code nulls the record's back-reference to the component before
returning it; here the component relation is already just the scalar
`componentId`).  The store-assigned child key is not modelled and is 0. -/
def fanoutCompRecon (orgId : Nat) (envRecon : EnvironmentReconcile)
    (c : Component) : ComponentReconcile :=
  ReconciliationService.createCompRecon 0 orgId envRecon c
    { status := some "waiting_for_parent"
      name := c.name
      envReconcileId := envRecon.reconcileId
      startDateTime := none }

/-- Model of `EnvironmentController.createEnvRecon` (lines 141–178): persists the
parent `EnvironmentReconcile` (dag snapshot, `startDateTime = now`), then
fans out over the environment's non-deleted components via
`Promise.allSettled`, creating one `ComponentReconcile` per live component
and updating that component's `latestCompRecon` reference.  `allSettled`
isolates rejections, so a persistence failure of one component's
sub-creation (modelled by the `fail` predicate) leaves every other
sub-creation and the parent untouched. -/
def createEnvRecon (fail : Component → Bool) (rid now orgId teamId : Nat)
    (teamName : String) (env : Environment) (dag : List EnvSpecComponentDto) :
    EnvReconRunResult :=
  let envRecon := ReconciliationService.createEnvRecon rid orgId teamId env
    { components := dag
      name := env.name
      startDateTime := some now
      teamName := teamName
      errorMessage := none }
  { envRecon := envRecon
    compRecons :=
      (env.components.filter fun c => !c.isDeleted).filterMap fun c =>
        if fail c then none else some (fanoutCompRecon orgId envRecon c)
    components := env.components.map fun c =>
      if !c.isDeleted && !fail c then
        { c with latestCompRecon := some (fanoutCompRecon orgId envRecon c) }
      else c }

end EnvironmentController

/-! ## Stale-Run Sweeper (`getSkippedEnvironments` lines 531–553,
`bulkUpdateEnvironmentEntries` lines 555–572, `getSkippedComponents`
lines 660–682, `bulkUpdateComponentEntries` lines 684–696) -/

namespace ReconciliationService

/-- Selection predicate of `getSkippedEnvironments`: open records
(`endDateTime IsNull`), not already `skipped_reconcile`, `reconcileId` not
among the kept ids, scoped to the team/organization/environment. -/
def envSweepSelects (orgId teamId : Nat) (env : Environment)
    (ignoreReconcileIds : List Nat) (r : EnvironmentReconcile) : Bool :=
  r.endDateTime.isNone && r.status != "skipped_reconcile" &&
    !(ignoreReconcileIds.contains r.reconcileId) &&
    r.teamId == teamId && r.orgId == orgId && r.envId == env.id

/-- Model of `ReconciliationService.getSkippedEnvironments`: the store rows matching
the sweep's selection predicate. -/
def getSkippedEnvironments (store : List EnvironmentReconcile)
    (orgId teamId : Nat) (env : Environment) (ignoreReconcileIds : List Nat) :
    List EnvironmentReconcile :=
  store.filter (envSweepSelects orgId teamId env ignoreReconcileIds)

/-- Model of `ReconciliationService.bulkUpdateEnvironmentEntries`: each entry is
re-saved as `{ ...entry, status }` — the spread copies every field and
overrides only `status`.  (The code's `entries.length > 0` guard only skips
an empty save; the saved rows are exactly this map.) -/
def bulkUpdateEnvironmentEntries (entries : List EnvironmentReconcile)
    (status : String) : List EnvironmentReconcile :=
  entries.map fun entry => { entry with status := status }

/-- Selection predicate of `getSkippedComponents`: same shape as the
environment-level sweep, scoped to the component and its parent
environment reconciliation. -/
def compSweepSelects (orgId : Nat) (envRecon : EnvironmentReconcile)
    (comp : Component) (ignoreReconcileIds : List Nat)
    (r : ComponentReconcile) : Bool :=
  r.componentId == comp.id && r.endDateTime.isNone &&
    r.status != "skipped_reconcile" &&
    !(ignoreReconcileIds.contains r.reconcileId) &&
    r.envReconId == envRecon.reconcileId && r.orgId == orgId

/-- Model of `ReconciliationService.getSkippedComponents`. -/
def getSkippedComponents (store : List ComponentReconcile) (orgId : Nat)
    (envRecon : EnvironmentReconcile) (comp : Component)
    (ignoreReconcileIds : List Nat) : List ComponentReconcile :=
  store.filter (compSweepSelects orgId envRecon comp ignoreReconcileIds)

/-- Model of `ReconciliationService.bulkUpdateComponentEntries`: re-save of
`{ ...entry, status }` for each selected component record. -/
def bulkUpdateComponentEntries (entries : List ComponentReconcile)
    (status : String) : List ComponentReconcile :=
  entries.map fun entry => { entry with status := status }

end ReconciliationService

/-- Store semantics of saving already-persisted environment-reconciliation
rows: the row with a matching primary key is replaced, every other row is
untouched. -/
def saveEnvRows (store updates : List EnvironmentReconcile) :
    List EnvironmentReconcile :=
  store.map fun r =>
    (updates.find? fun u => u.reconcileId == r.reconcileId).getD r

/-- Store semantics of saving already-persisted component-reconciliation
rows. -/
def saveCompRows (store updates : List ComponentReconcile) :
    List ComponentReconcile :=
  store.map fun r =>
    (updates.find? fun u => u.reconcileId == r.reconcileId).getD r

/-- The environment-level sweep: select the superseded open runs
(`getSkippedEnvironments`) and bulk-mark them `skipped_reconcile`
(`bulkUpdateEnvironmentEntries`), leaving all other rows in the store as
they were. -/
def sweepEnvironment (store : List EnvironmentReconcile) (orgId teamId : Nat)
    (env : Environment) (keepReconcileIds : List Nat) :
    List EnvironmentReconcile :=
  saveEnvRows store
    (ReconciliationService.bulkUpdateEnvironmentEntries
      (ReconciliationService.getSkippedEnvironments store orgId teamId env
        keepReconcileIds)
      "skipped_reconcile")

/-- The component-level sweep: `getSkippedComponents` followed by
`bulkUpdateComponentEntries` with `skipped_reconcile`. -/
def sweepComponent (store : List ComponentReconcile) (orgId : Nat)
    (envRecon : EnvironmentReconcile) (comp : Component)
    (keepReconcileIds : List Nat) : List ComponentReconcile :=
  saveCompRows store
    (ReconciliationService.bulkUpdateComponentEntries
      (ReconciliationService.getSkippedComponents store orgId envRecon comp
        keepReconcileIds)
      "skipped_reconcile")

/-! ## Cost Aggregator (`updateCost`, lines 844–861) -/

/-- The accumulation loop of `updateCost`: starting from `0.0`, each
component whose `latestCompRecon?.estimatedCost > 0` (optional chaining: a
missing latest reconciliation fails the comparison) adds its latest run's
cost. -/
def updateCostLoop (comps : List Component) : ℚ :=
  comps.foldl
    (fun acc comp =>
      match comp.latestCompRecon with
      | some r => if 0 < r.estimatedCost then acc + r.estimatedCost else acc
      | none => acc)
    0

namespace ReconciliationService

/-- Model of `ReconciliationService.updateCost`: sums the positive latest-run costs
of the environment's components, then takes `env.latestEnvRecon`, deletes
its in-memory `componentReconciles` collection, merges the new
`estimatedCost` and saves that row.  Returns the saved row; `none` when the
environment carries no latest reconciliation (the code would throw deleting
a property of `undefined`). -/
def updateCost (env : Environment) : Option EnvironmentReconcile :=
  match env.latestEnvRecon with
  | none => none
  | some envRecon =>
    some { envRecon with
           componentReconciles := none
           estimatedCost := updateCostLoop env.components }

end ReconciliationService

/-- The in-memory environment after `updateCost`: `env.latestEnvRecon`
aliases the mutated and saved row. -/
def applyUpdateCost (env : Environment) : Option Environment :=
  (ReconciliationService.updateCost env).map fun saved =>
    { env with latestEnvRecon := some saved }

/-! ## Latest-Run Resolver (`getLatestCompReconcile`, lines 798–826) -/

/-- Strict "starts later" order on nullable `startDateTime` columns: the
store sorts `NULL` first ascending, hence last descending, so `none` is
below every concrete time. -/
def startLt : Option Nat → Option Nat → Bool
  | none, some _ => true
  | some a, some b => a < b
  | _, none => false

/-- The status filter of `getLatestCompReconcile`:
`And(Not(Like('skipped%')), Not('waiting_for_parent'))`.  The SQL
`Like('skipped%')` is a prefix match, modelled over the string's
characters. -/
def meaningfulStatus (s : String) : Bool :=
  !(List.isPrefixOf "skipped".data s.data) && s != "waiting_for_parent"

/-- The two OR-ed where clauses of `getLatestCompReconcile` differ only in
`isSkipped: IsNull()` versus `isSkipped: false` — together they accept a
flag that is unset or false. -/
def isSkippedNullOrFalse : Option Bool → Bool
  | none => true
  | some b => !b

/-- Full row filter of `getLatestCompReconcile`: the component's own rows
within the organization, meaningful status, not flagged skipped. -/
def eligibleLatest (orgId : Nat) (comp : Component)
    (r : ComponentReconcile) : Bool :=
  r.componentId == comp.id && r.orgId == orgId &&
    meaningfulStatus r.status && isSkippedNullOrFalse r.isSkipped

/-- The `findOne` with descending start-time order keeps a row that starts
strictly later than the current best; on ties the earlier-encountered row
wins (which row the store returns among ties is unspecified; this picks one
maximal row). -/
def pickLatest : Option ComponentReconcile → ComponentReconcile →
    Option ComponentReconcile
  | none, r => some r
  | some b, r => if startLt b.startDateTime r.startDateTime then some r
                 else some b

namespace ReconciliationService

/-- Model of `ReconciliationService.getLatestCompReconcile`: the single eligible row
with the greatest `startDateTime`, or `none` when the component has no
eligible row. -/
def getLatestCompReconcile (store : List ComponentReconcile) (orgId : Nat)
    (comp : Component) : Option ComponentReconcile :=
  (store.filter (eligibleLatest orgId comp)).foldl pickLatest none

end ReconciliationService

/-! ## Concrete fixtures for examples and witnesses -/

/-- A live component. -/
def egComp1 : Component :=
  { id := 1, name := "networking", isDeleted := false, latestCompRecon := none }

/-- A live component. -/
def egComp2 : Component :=
  { id := 2, name := "platform-eks", isDeleted := false, latestCompRecon := none }

/-- A live component. -/
def egComp3 : Component :=
  { id := 3, name := "ec2", isDeleted := false, latestCompRecon := none }

/-- A soft-deleted component. -/
def egComp4 : Component :=
  { id := 4, name := "retired-db", isDeleted := true, latestCompRecon := none }

/-- An environment with three live components and one soft-deleted one. -/
def egEnv : Environment :=
  { id := 10, name := "dev", dag := [], isDeleted := false,
    components := [egComp1, egComp2, egComp3, egComp4],
    latestEnvRecon := none }

/-- The failure pattern used in the C4 witness: the sub-creation of the
component with id 2 fails. -/
def egFail : Component → Bool := fun c => c.id == 2

/-- An open in-scope environment run (will be swept). -/
def egRunOpen : EnvironmentReconcile :=
  { reconcileId := 1, envId := 10, teamId := 2, orgId := 1,
    status := "running", dag := [], startDateTime := some 50,
    endDateTime := none, errorMessage := none, gitSha := "",
    estimatedCost := 0, componentReconciles := none }

/-- A terminal environment run (endDateTime set — untouched). -/
def egRunDone : EnvironmentReconcile :=
  { reconcileId := 2, envId := 10, teamId := 2, orgId := 1,
    status := "succeeded", dag := [], startDateTime := some 40,
    endDateTime := some 45, errorMessage := none, gitSha := "",
    estimatedCost := 3, componentReconciles := none }

/-- An already skipped environment run (untouched). -/
def egRunSkipped : EnvironmentReconcile :=
  { reconcileId := 3, envId := 10, teamId := 2, orgId := 1,
    status := "skipped_reconcile", dag := [], startDateTime := some 30,
    endDateTime := none, errorMessage := none, gitSha := "",
    estimatedCost := 0, componentReconciles := none }

/-- The newly started environment run being kept. -/
def egRunKept : EnvironmentReconcile :=
  { reconcileId := 9, envId := 10, teamId := 2, orgId := 1,
    status := "initializing", dag := [], startDateTime := some 100,
    endDateTime := none, errorMessage := none, gitSha := "",
    estimatedCost := 0, componentReconciles := none }

/-- The parent environment run scoping the component-level sweep. -/
def egParentRecon : EnvironmentReconcile :=
  { reconcileId := 5, envId := 10, teamId := 2, orgId := 1,
    status := "initializing", dag := [], startDateTime := some 100,
    endDateTime := none, errorMessage := none, gitSha := "",
    estimatedCost := 0, componentReconciles := none }

/-- An open in-scope component run (will be swept). -/
def egCompRunOpen : ComponentReconcile :=
  { reconcileId := 11, componentId := 1, envReconId := 5, orgId := 1,
    status := "running", startDateTime := some 55, endDateTime := none,
    estimatedCost := 0, isSkipped := none }

/-- The newly created component run being kept. -/
def egCompRunKept : ComponentReconcile :=
  { reconcileId := 12, componentId := 1, envReconId := 5, orgId := 1,
    status := "waiting_for_parent", startDateTime := none,
    endDateTime := none, estimatedCost := 0, isSkipped := none }

/-- A latest component run reporting cost 10. -/
def egLatestCost10 : ComponentReconcile :=
  { reconcileId := 31, componentId := 21, envReconId := 5, orgId := 1,
    status := "succeeded", startDateTime := some 1, endDateTime := some 2,
    estimatedCost := 10, isSkipped := none }

/-- A latest component run reporting cost -5 (treated as 0 by the sum). -/
def egLatestCostNeg : ComponentReconcile :=
  { reconcileId := 32, componentId := 22, envReconId := 5, orgId := 1,
    status := "succeeded", startDateTime := some 1, endDateTime := some 2,
    estimatedCost := -5, isSkipped := none }

/-- A latest component run reporting cost 0. -/
def egLatestCost0 : ComponentReconcile :=
  { reconcileId := 33, componentId := 23, envReconId := 5, orgId := 1,
    status := "succeeded", startDateTime := some 1, endDateTime := some 2,
    estimatedCost := 0, isSkipped := none }

/-- A latest component run reporting cost 7.5. -/
def egLatestCost75 : ComponentReconcile :=
  { reconcileId := 34, componentId := 24, envReconId := 5, orgId := 1,
    status := "succeeded", startDateTime := some 1, endDateTime := some 2,
    estimatedCost := 15/2, isSkipped := none }

/-- Components whose latest runs report costs [10, -5, 0, 7.5], plus one
with no latest run at all. -/
def egCostComps : List Component :=
  [{ id := 21, name := "a", isDeleted := false,
     latestCompRecon := some egLatestCost10 },
   { id := 22, name := "b", isDeleted := false,
     latestCompRecon := some egLatestCostNeg },
   { id := 23, name := "c", isDeleted := false,
     latestCompRecon := some egLatestCost0 },
   { id := 24, name := "d", isDeleted := false,
     latestCompRecon := some egLatestCost75 },
   { id := 25, name := "e", isDeleted := false, latestCompRecon := none }]

/-- An environment carrying the cost-example components and a latest
environment reconciliation. -/
def egCostEnv : Environment :=
  { id := 10, name := "dev", dag := [], isDeleted := false,
    components := egCostComps, latestEnvRecon := some egParentRecon }

/-- The row `updateCost` saves for `egCostEnv`: children dropped,
`estimatedCost` recomputed to 17.5. -/
def egSavedRecon : EnvironmentReconcile :=
  { egParentRecon with componentReconciles := none, estimatedCost := 35/2 }

/-- The environment `egCostEnv` after the cost write-back. -/
def egCostEnvAfter : Environment :=
  { egCostEnv with latestEnvRecon := some egSavedRecon }

/-- A component run skipped by timeout at t1 (excluded by the resolver). -/
def egRunT1 : ComponentReconcile :=
  { reconcileId := 41, componentId := 1, envReconId := 5, orgId := 1,
    status := "skipped_timeout", startDateTime := some 1,
    endDateTime := none, estimatedCost := 0, isSkipped := none }

/-- A component run waiting for its parent at t2 (excluded). -/
def egRunT2 : ComponentReconcile :=
  { reconcileId := 42, componentId := 1, envReconId := 5, orgId := 1,
    status := "waiting_for_parent", startDateTime := some 2,
    endDateTime := none, estimatedCost := 0, isSkipped := none }

/-- A succeeded component run at t3. -/
def egRunT3 : ComponentReconcile :=
  { reconcileId := 43, componentId := 1, envReconId := 5, orgId := 1,
    status := "succeeded", startDateTime := some 3, endDateTime := some 4,
    estimatedCost := 2, isSkipped := none }

/-- A failed component run at t4 (the latest meaningful run). -/
def egRunT4 : ComponentReconcile :=
  { reconcileId := 44, componentId := 1, envReconId := 5, orgId := 1,
    status := "failed", startDateTime := some 4, endDateTime := some 5,
    estimatedCost := 0, isSkipped := none }

/-! ## Characterisations of the diff loop -/

/-- A `find?` misses exactly when no element satisfies the predicate. -/
lemma find?_isNone_eq_not_any {α : Type} (p : α → Bool) (l : List α) :
    (l.find? p).isNone = !(l.any p) := by
  induction l with
  | nil => rfl
  | cons a l ih =>
    cases ha : p a <;> simp [List.find?_cons, ha, ih]

/-- The loop's `missingComponents` accumulator is the stored components
without a same-named incoming spec, in stored order. -/
lemma splitCurrent_fst (incoming : List EnvSpecComponentDto) :
    ∀ cur : List Component,
      (splitCurrent incoming cur).1 =
        cur.filter fun c => (incoming.find? fun i => c.name == i.name).isNone
  | [] => rfl
  | comp :: rest => by
    simp only [splitCurrent, List.filter_cons]
    cases h : incoming.find? fun i => comp.name == i.name with
    | none => simp [h, splitCurrent_fst incoming rest]
    | some found => simp [h, splitCurrent_fst incoming rest]

/-- The loop's `existingComponents` accumulator is, for each stored
component in stored order, the first same-named incoming spec. -/
lemma splitCurrent_snd (incoming : List EnvSpecComponentDto) :
    ∀ cur : List Component,
      (splitCurrent incoming cur).2 =
        cur.filterMap fun c => incoming.find? fun i => c.name == i.name
  | [] => rfl
  | comp :: rest => by
    simp only [splitCurrent, List.filterMap_cons]
    cases h : incoming.find? fun i => comp.name == i.name with
    | none => simp [h, splitCurrent_snd incoming rest]
    | some found => simp [h, splitCurrent_snd incoming rest]

/-- Every entry of the merged dag is one of the incoming specs. -/
lemma mem_mergedDag_mem_incoming {cur : List Component}
    {incoming : List EnvSpecComponentDto} {d : EnvSpecComponentDto}
    (hd : d ∈ (planDiff cur incoming).mergedDag) : d ∈ incoming := by
  simp only [planDiff] at hd
  rcases List.mem_append.mp hd with h | h
  · rw [splitCurrent_snd] at h
    rcases List.mem_filterMap.mp h with ⟨c, _, hfind⟩
    exact List.mem_of_find?_eq_some hfind
  · exact List.mem_of_mem_filter h

/-- Every incoming spec's name occurs in the merged dag. -/
lemma incoming_name_mem_mergedDag {cur : List Component}
    {incoming : List EnvSpecComponentDto} {i : EnvSpecComponentDto}
    (hi : i ∈ incoming) :
    ∃ d ∈ (planDiff cur incoming).mergedDag, d.name = i.name := by
  by_cases h : ∃ c ∈ cur, c.name = i.name
  · obtain ⟨c, hc, hname⟩ := h
    have hsome : ((incoming.find? fun j => c.name == j.name).isSome) := by
      exact List.find?_isSome.mpr ⟨i, hi, by simp [hname]⟩
    obtain ⟨found, hfound⟩ := Option.isSome_iff_exists.mp hsome
    refine ⟨found, ?_, ?_⟩
    · simp only [planDiff]
      refine List.mem_append.mpr (Or.inl ?_)
      rw [splitCurrent_snd]
      exact List.mem_filterMap.mpr ⟨c, hc, hfound⟩
    · have hpred := List.find?_some hfound
      have hcf : c.name = found.name := by simpa using hpred
      rw [← hcf, hname]
  · refine ⟨i, ?_, rfl⟩
    simp only [planDiff]
    refine List.mem_append.mpr (Or.inr ?_)
    refine List.mem_filter.mpr ⟨hi, ?_⟩
    rw [find?_isNone_eq_not_any]
    push_neg at h
    simp only [Bool.not_eq_true', List.any_eq_false]
    intro c hc
    simpa using fun hcn => h c hc hcn

/-- C1: the diff computes `toCreate` as the incoming specs whose name does
not occur among the stored components (in incoming order), `toDelete` as
the stored components whose name does not occur among the incoming specs
(in stored order), and `mergedDag` as the matched incoming specs in
stored-current order followed by `toCreate`; on
`current = [b, a]`, `incoming = [a, c]` it yields `toCreate = [c]`,
`toDelete = [b]`, `mergedDag = [a, c]`. -/
theorem claim_C1 :
    (∀ (currentComps : List Component) (incoming : List EnvSpecComponentDto),
      (planDiff currentComps incoming).toCreate =
          incoming.filter
            (fun inc => !(currentComps.any fun comp => comp.name == inc.name))
        ∧ (planDiff currentComps incoming).toDelete =
          currentComps.filter
            (fun comp => !(incoming.any fun inc => comp.name == inc.name))
        ∧ (planDiff currentComps incoming).mergedDag =
          (currentComps.filterMap fun comp =>
              incoming.find? fun inc => comp.name == inc.name)
            ++ (planDiff currentComps incoming).toCreate)
    ∧ planDiff
        [{ id := 1, name := "b", isDeleted := false, latestCompRecon := none },
         { id := 2, name := "a", isDeleted := false, latestCompRecon := none }]
        [{ name := "a", config := "cfgA" }, { name := "c", config := "cfgC" }]
      = { toCreate := [{ name := "c", config := "cfgC" }]
          toDelete :=
            [{ id := 1, name := "b", isDeleted := false,
               latestCompRecon := none }]
          mergedDag :=
            [{ name := "a", config := "cfgA" },
             { name := "c", config := "cfgC" }] } := by
  constructor
  · intro currentComps incoming
    refine ⟨?_, ?_, ?_⟩
    · simp only [planDiff, newComponents]
      exact List.filter_congr fun i _ => find?_isNone_eq_not_any _ _
    · simp only [planDiff]
      rw [splitCurrent_fst]
      exact List.filter_congr fun c _ => find?_isNone_eq_not_any _ _
    · simp only [planDiff]
      rw [splitCurrent_snd]
  · rfl

/-- C2: the diff is idempotent — after the merged dag becomes the stored
component set, re-running the diff with the same incoming list creates and
deletes nothing. -/
theorem claim_C2 (cur : List Component) (incoming : List EnvSpecComponentDto) :
    (planDiff ((planDiff cur incoming).mergedDag.map specToComponent)
        incoming).toCreate = []
    ∧ (planDiff ((planDiff cur incoming).mergedDag.map specToComponent)
        incoming).toDelete = [] := by
  constructor
  · simp only [planDiff, newComponents]
    rw [List.filter_congr fun i _ => find?_isNone_eq_not_any _ _]
    refine List.filter_eq_nil_iff.mpr fun i hi => ?_
    obtain ⟨d, hd, hname⟩ := @incoming_name_mem_mergedDag cur incoming i hi
    simp only [Bool.not_eq_true', Bool.not_eq_false]
    exact List.any_eq_true.mpr
      ⟨specToComponent d, List.mem_map_of_mem _ hd, by simp [specToComponent, hname]⟩
  · simp only [planDiff]
    rw [splitCurrent_fst]
    refine List.filter_eq_nil_iff.mpr fun c hc => ?_
    obtain ⟨d, hd, hcd⟩ := List.mem_map.mp hc
    rw [find?_isNone_eq_not_any]
    simp only [Bool.not_eq_true', Bool.not_eq_false]
    exact List.any_eq_true.mpr
      ⟨d, mem_mergedDag_mem_incoming hd, by simp [← hcd, specToComponent]⟩

/-! ## Orchestrator fan-out lemmas -/

/-- A `filterMap` that drops exactly the elements a predicate rejects is a
`map` over the filtered list. -/
lemma filterMap_if_none {α β : Type} (p : α → Bool) (f : α → β) (l : List α) :
    l.filterMap (fun c => if p c then none else some (f c))
      = (l.filter fun c => !p c).map f := by
  induction l with
  | nil => rfl
  | cons a l ih =>
    cases hpa : p a <;>
      simp [List.filterMap_cons, List.filter_cons, hpa, ih]

/-- The persisted child records of one orchestrated run are the fan-out
records of exactly the live components whose sub-creation did not fail. -/
lemma createEnvRecon_compRecons (fail : Component → Bool)
    (rid now orgId teamId : Nat) (teamName : String) (env : Environment)
    (dag : List EnvSpecComponentDto) :
    (EnvironmentController.createEnvRecon fail rid now orgId teamId teamName
        env dag).compRecons
      = ((env.components.filter fun c => !c.isDeleted).filter
            fun c => !fail c).map
          (EnvironmentController.fanoutCompRecon orgId
            (EnvironmentController.createEnvRecon fail rid now orgId teamId
                teamName env dag).envRecon) := by
  simp only [EnvironmentController.createEnvRecon]
  rw [filterMap_if_none]

/-- C3: a failure-free environment run creates the parent record in status
`initializing` and exactly one `waiting_for_parent` child record per live
component, each linked to the parent; soft-deleted components get no
record and their rows are left unmodified. -/
theorem claim_C3 (rid now orgId teamId : Nat) (teamName : String)
    (env : Environment) (dag : List EnvSpecComponentDto)
    (hids : (env.components.map Component.id).Nodup) :
    (EnvironmentController.createEnvRecon (fun _ => false) rid now orgId
        teamId teamName env dag).envRecon.status = "initializing"
    ∧ (EnvironmentController.createEnvRecon (fun _ => false) rid now orgId
        teamId teamName env dag).compRecons.map ComponentReconcile.componentId
      = (env.components.filter fun c => !c.isDeleted).map Component.id
    ∧ (∀ r ∈ (EnvironmentController.createEnvRecon (fun _ => false) rid now
          orgId teamId teamName env dag).compRecons,
        r.status = "waiting_for_parent"
          ∧ r.envReconId = (EnvironmentController.createEnvRecon
              (fun _ => false) rid now orgId teamId teamName env
              dag).envRecon.reconcileId)
    ∧ (∀ c ∈ env.components, c.isDeleted = true →
        (∀ r ∈ (EnvironmentController.createEnvRecon (fun _ => false) rid now
            orgId teamId teamName env dag).compRecons, r.componentId ≠ c.id)
          ∧ c ∈ (EnvironmentController.createEnvRecon (fun _ => false) rid
              now orgId teamId teamName env dag).components) := by
  refine ⟨rfl, ?_, ?_, ?_⟩
  · rw [createEnvRecon_compRecons]
    simp only [Bool.not_false, List.filter_true, List.map_map]
    exact List.map_congr_left fun c _ => rfl
  · intro r hr
    rw [createEnvRecon_compRecons] at hr
    obtain ⟨c, _, hc⟩ := List.mem_map.mp hr
    subst hc
    exact ⟨rfl, rfl⟩
  · intro c hc hdel
    constructor
    · intro r hr
      rw [createEnvRecon_compRecons] at hr
      obtain ⟨c', hc', hceq⟩ := List.mem_map.mp hr
      subst hceq
      have hc'mem : c' ∈ env.components :=
        List.mem_of_mem_filter (List.mem_of_mem_filter hc')
      have hc'live : (!c'.isDeleted) = true :=
        (List.mem_filter.mp (List.mem_of_mem_filter hc')).2
      intro hid
      have : c' = c := List.inj_on_of_nodup_map hids hc'mem hc hid
      rw [this, hdel] at hc'live
      simp at hc'live
    · simp only [EnvironmentController.createEnvRecon]
      refine List.mem_map.mpr ⟨c, hc, ?_⟩
      simp [hdel]

/-- Witness for C3: on the environment with 3 live components and 1
soft-deleted component, the failure-free run satisfies the claim, and
exactly 3 child records are created. -/
theorem claim_C3_witness :
    (egEnv.components.map Component.id).Nodup
    ∧ ((EnvironmentController.createEnvRecon (fun _ => false) 5 100 1 2
          "team" egEnv []).envRecon.status = "initializing"
      ∧ (EnvironmentController.createEnvRecon (fun _ => false) 5 100 1 2
          "team" egEnv []).compRecons.map ComponentReconcile.componentId
        = (egEnv.components.filter fun c => !c.isDeleted).map Component.id
      ∧ (∀ r ∈ (EnvironmentController.createEnvRecon (fun _ => false) 5 100
            1 2 "team" egEnv []).compRecons,
          r.status = "waiting_for_parent"
            ∧ r.envReconId = (EnvironmentController.createEnvRecon
                (fun _ => false) 5 100 1 2 "team" egEnv
                []).envRecon.reconcileId)
      ∧ (∀ c ∈ egEnv.components, c.isDeleted = true →
          (∀ r ∈ (EnvironmentController.createEnvRecon (fun _ => false) 5
              100 1 2 "team" egEnv []).compRecons, r.componentId ≠ c.id)
            ∧ c ∈ (EnvironmentController.createEnvRecon (fun _ => false) 5
                100 1 2 "team" egEnv []).components))
    ∧ (EnvironmentController.createEnvRecon (fun _ => false) 5 100 1 2
        "team" egEnv []).compRecons.length = 3 :=
  ⟨by decide, claim_C3 5 100 1 2 "team" egEnv [] (by decide), by rfl⟩

/-- C4: the fan-out isolates failures — for every failure pattern, the
parent record equals the failure-free run's parent, every live component
whose own sub-creation does not fail still gets its record, the created
records are exactly those of the non-failing live components (siblings are
neither cancelled nor rolled back), and a non-failing component's row ends
up as in the failure-free run. -/
theorem claim_C4 (fail : Component → Bool) (rid now orgId teamId : Nat)
    (teamName : String) (env : Environment)
    (dag : List EnvSpecComponentDto) :
    (EnvironmentController.createEnvRecon fail rid now orgId teamId teamName
        env dag).envRecon
      = (EnvironmentController.createEnvRecon (fun _ => false) rid now orgId
          teamId teamName env dag).envRecon
    ∧ (∀ c ∈ env.components, c.isDeleted = false → fail c = false →
        EnvironmentController.fanoutCompRecon orgId
            (EnvironmentController.createEnvRecon fail rid now orgId teamId
                teamName env dag).envRecon c
          ∈ (EnvironmentController.createEnvRecon fail rid now orgId teamId
              teamName env dag).compRecons)
    ∧ (EnvironmentController.createEnvRecon fail rid now orgId teamId
          teamName env dag).compRecons
      = ((env.components.filter fun c => !c.isDeleted).filter
            fun c => !fail c).map
          (EnvironmentController.fanoutCompRecon orgId
            (EnvironmentController.createEnvRecon fail rid now orgId teamId
                teamName env dag).envRecon)
    ∧ (∀ (i : Nat) (c : Component), env.components[i]? = some c →
        fail c = false →
        (EnvironmentController.createEnvRecon fail rid now orgId teamId
            teamName env dag).components[i]?
          = (EnvironmentController.createEnvRecon (fun _ => false) rid now
              orgId teamId teamName env dag).components[i]?) := by
  refine ⟨rfl, ?_, createEnvRecon_compRecons fail rid now orgId teamId
    teamName env dag, ?_⟩
  · intro c hc hlive hfail
    rw [createEnvRecon_compRecons]
    exact List.mem_map_of_mem _
      (List.mem_filter.mpr
        ⟨List.mem_filter.mpr ⟨hc, by simp [hlive]⟩, by simp [hfail]⟩)
  · intro i c hi hfail
    simp only [EnvironmentController.createEnvRecon]
    rw [List.getElem?_map, List.getElem?_map, hi]
    simp [hfail]

/-- Witness for C4: with component 2's sub-creation failing, component 1
still gets its record and the parent equals the failure-free parent. -/
theorem claim_C4_witness :
    (egComp1 ∈ egEnv.components ∧ egComp1.isDeleted = false
      ∧ egFail egComp1 = false)
    ∧ EnvironmentController.fanoutCompRecon 1
        (EnvironmentController.createEnvRecon egFail 5 100 1 2 "team" egEnv
            []).envRecon egComp1
      ∈ (EnvironmentController.createEnvRecon egFail 5 100 1 2 "team" egEnv
          []).compRecons
    ∧ (EnvironmentController.createEnvRecon egFail 5 100 1 2 "team" egEnv
        []).envRecon
      = (EnvironmentController.createEnvRecon (fun _ => false) 5 100 1 2
          "team" egEnv []).envRecon :=
  ⟨⟨by decide, by decide, by decide⟩,
    (claim_C4 egFail 5 100 1 2 "team" egEnv []).2.1 egComp1 (by decide)
      (by decide) (by decide),
    (claim_C4 egFail 5 100 1 2 "team" egEnv []).1⟩

/-- C10: `createCompRecon` stores the creation dto's `startDateTime`
verbatim, and the orchestrator's per-component dto carries none, so every
orchestrator-created component-reconciliation record has no
`startDateTime`. -/
theorem claim_C10 :
    (∀ (rid orgId : Nat) (envRecon : EnvironmentReconcile)
        (comp : Component) (dto : CreateComponentReconciliationDto),
      (ReconciliationService.createCompRecon rid orgId envRecon comp
          dto).startDateTime = dto.startDateTime)
    ∧ (∀ (fail : Component → Bool) (rid now orgId teamId : Nat)
        (teamName : String) (env : Environment)
        (dag : List EnvSpecComponentDto),
      ∀ r ∈ (EnvironmentController.createEnvRecon fail rid now orgId teamId
          teamName env dag).compRecons,
        r.startDateTime = none) := by
  refine ⟨fun _ _ _ _ _ => rfl, ?_⟩
  intro fail rid now orgId teamId teamName env dag r hr
  rw [createEnvRecon_compRecons] at hr
  obtain ⟨c, _, hc⟩ := List.mem_map.mp hr
  subst hc
  rfl

/-- Witness for C10: a dto's `startDateTime` is stored verbatim, and a
concrete orchestrator-created record carries none. -/
theorem claim_C10_witness :
    (ReconciliationService.createCompRecon 7 1
        (EnvironmentController.createEnvRecon (fun _ => false) 5 100 1 2
            "team" egEnv []).envRecon egComp1
        { status := some "waiting_for_parent", name := "networking",
          envReconcileId := 5, startDateTime := some 33 }).startDateTime
      = some 33
    ∧ EnvironmentController.fanoutCompRecon 1
        (EnvironmentController.createEnvRecon (fun _ => false) 5 100 1 2
            "team" egEnv []).envRecon egComp1
      ∈ (EnvironmentController.createEnvRecon (fun _ => false) 5 100 1 2
          "team" egEnv []).compRecons
    ∧ (EnvironmentController.fanoutCompRecon 1
        (EnvironmentController.createEnvRecon (fun _ => false) 5 100 1 2
            "team" egEnv []).envRecon egComp1).startDateTime = none :=
  ⟨claim_C10.1 7 1 _ egComp1 _, by decide,
    claim_C10.2 (fun _ => false) 5 100 1 2 "team" egEnv [] _ (by decide)⟩

/-! ## Sweep save semantics -/

/-- Looking a row's key up among the re-saved rows of a key-preserving
bulk update of the selected rows: hit exactly when the row itself was
selected (keys are unique across the store). -/
lemma find?_update_key {α : Type} (key : α → Nat) (p : α → Bool) (f : α → α)
    (hf : ∀ r, key (f r) = key r) (store : List α)
    (hnodup : (store.map key).Nodup) {r : α} (hr : r ∈ store) :
    ((store.filter p).map f).find? (fun u => key u == key r)
      = if p r then some (f r) else none := by
  cases hp : p r with
  | true =>
    have hmem : f r ∈ (store.filter p).map f :=
      List.mem_map_of_mem _ (List.mem_filter.mpr ⟨hr, hp⟩)
    have hsome :
        (((store.filter p).map f).find? fun u => key u == key r).isSome :=
      List.find?_isSome.mpr ⟨f r, hmem, by simp [hf]⟩
    obtain ⟨u, hu⟩ := Option.isSome_iff_exists.mp hsome
    have hpred := List.find?_some hu
    obtain ⟨r', hr', hr'u⟩ := List.mem_map.mp (List.mem_of_find?_eq_some hu)
    have hkey : key u = key r := by simpa using hpred
    have hr'r : r' = r :=
      List.inj_on_of_nodup_map hnodup (List.mem_of_mem_filter hr') hr
        (by rw [← hf r', hr'u, hkey])
    rw [hu, ← hr'u, hr'r]
    simp
  | false =>
    simp only [Bool.false_eq_true, if_neg]
    refine List.find?_eq_none.mpr fun u hu => ?_
    obtain ⟨r', hr', hr'u⟩ := List.mem_map.mp hu
    simp only [beq_iff_eq, Bool.not_eq_true]
    intro hkey
    have hr'r : r' = r :=
      List.inj_on_of_nodup_map hnodup (List.mem_of_mem_filter hr') hr
        (by rw [← hf r', hr'u]; exact hkey)
    rw [hr'r] at hr'
    rw [(List.mem_filter.mp hr').2] at hp
    exact absurd hp (by simp)

/-- Saving a key-preserving bulk update of the selected rows back into the
store updates exactly the selected rows in place. -/
lemma save_filter_map_eq {α : Type} (key : α → Nat) (p : α → Bool)
    (f : α → α) (hf : ∀ r, key (f r) = key r) (store : List α)
    (hnodup : (store.map key).Nodup) :
    (store.map fun r =>
        (((store.filter p).map f).find? (fun u => key u == key r)).getD r)
      = store.map fun r => if p r then f r else r := by
  refine List.map_congr_left fun r hr => ?_
  rw [find?_update_key key p f hf store hnodup hr]
  cases hp : p r <;> simp [hp]

/-- The environment-level selection predicate, spelled as the claim reads:
open (no end time), not already skipped, not kept, in scope. -/
lemma envSweepSelects_iff (orgId teamId : Nat) (env : Environment)
    (keep : List Nat) (r : EnvironmentReconcile) :
    ReconciliationService.envSweepSelects orgId teamId env keep r = true ↔
      (r.endDateTime = none ∧ r.status ≠ "skipped_reconcile"
        ∧ r.reconcileId ∉ keep ∧ r.teamId = teamId ∧ r.orgId = orgId
        ∧ r.envId = env.id) := by
  simp [ReconciliationService.envSweepSelects, Option.isNone_iff_eq_none,
    List.elem_iff, and_assoc]

/-- The component-level selection predicate, spelled as the claim reads. -/
lemma compSweepSelects_iff (orgId : Nat) (envRecon : EnvironmentReconcile)
    (comp : Component) (keep : List Nat) (r : ComponentReconcile) :
    ReconciliationService.compSweepSelects orgId envRecon comp keep r = true ↔
      (r.componentId = comp.id ∧ r.endDateTime = none
        ∧ r.status ≠ "skipped_reconcile" ∧ r.reconcileId ∉ keep
        ∧ r.envReconId = envRecon.reconcileId ∧ r.orgId = orgId) := by
  simp [ReconciliationService.compSweepSelects, Option.isNone_iff_eq_none,
    List.elem_iff, and_assoc]

/-- C5: a sweep (either level) turns exactly the in-scope open records that
are not already `skipped_reconcile` and whose `reconcileId` is not kept
into `skipped_reconcile`, and leaves every other record completely
unchanged. -/
theorem claim_C5 :
    (∀ (store : List EnvironmentReconcile) (orgId teamId : Nat)
        (env : Environment) (keep : List Nat),
      (store.map EnvironmentReconcile.reconcileId).Nodup →
      sweepEnvironment store orgId teamId env keep
        = store.map fun r =>
            if r.endDateTime = none ∧ r.status ≠ "skipped_reconcile"
                ∧ r.reconcileId ∉ keep ∧ r.teamId = teamId
                ∧ r.orgId = orgId ∧ r.envId = env.id
            then { r with status := "skipped_reconcile" } else r)
    ∧ (∀ (store : List ComponentReconcile) (orgId : Nat)
        (envRecon : EnvironmentReconcile) (comp : Component)
        (keep : List Nat),
      (store.map ComponentReconcile.reconcileId).Nodup →
      sweepComponent store orgId envRecon comp keep
        = store.map fun r =>
            if r.componentId = comp.id ∧ r.endDateTime = none
                ∧ r.status ≠ "skipped_reconcile" ∧ r.reconcileId ∉ keep
                ∧ r.envReconId = envRecon.reconcileId ∧ r.orgId = orgId
            then { r with status := "skipped_reconcile" } else r) := by
  constructor
  · intro store orgId teamId env keep hnodup
    have h1 : sweepEnvironment store orgId teamId env keep
        = store.map fun r =>
            if ReconciliationService.envSweepSelects orgId teamId env keep r
            then { r with status := "skipped_reconcile" } else r :=
      save_filter_map_eq (fun e : EnvironmentReconcile => e.reconcileId)
        (ReconciliationService.envSweepSelects orgId teamId env keep)
        (fun e => { e with status := "skipped_reconcile" })
        (fun _ => rfl) store hnodup
    rw [h1]
    refine List.map_congr_left fun r _ => ?_
    by_cases hp : r.endDateTime = none ∧ r.status ≠ "skipped_reconcile"
        ∧ r.reconcileId ∉ keep ∧ r.teamId = teamId ∧ r.orgId = orgId
        ∧ r.envId = env.id
    · rw [if_pos ((envSweepSelects_iff orgId teamId env keep r).mpr hp),
        if_pos hp]
    · rw [if_neg (fun hb => hp ((envSweepSelects_iff orgId teamId env keep
        r).mp hb)), if_neg hp]
  · intro store orgId envRecon comp keep hnodup
    have h1 : sweepComponent store orgId envRecon comp keep
        = store.map fun r =>
            if ReconciliationService.compSweepSelects orgId envRecon comp
                keep r
            then { r with status := "skipped_reconcile" } else r :=
      save_filter_map_eq (fun e : ComponentReconcile => e.reconcileId)
        (ReconciliationService.compSweepSelects orgId envRecon comp keep)
        (fun e => { e with status := "skipped_reconcile" })
        (fun _ => rfl) store hnodup
    rw [h1]
    refine List.map_congr_left fun r _ => ?_
    by_cases hp : r.componentId = comp.id ∧ r.endDateTime = none
        ∧ r.status ≠ "skipped_reconcile" ∧ r.reconcileId ∉ keep
        ∧ r.envReconId = envRecon.reconcileId ∧ r.orgId = orgId
    · rw [if_pos ((compSweepSelects_iff orgId envRecon comp keep r).mpr hp),
        if_pos hp]
    · rw [if_neg (fun hb => hp ((compSweepSelects_iff orgId envRecon comp
        keep r).mp hb)), if_neg hp]

/-- Witness for C5: a concrete environment-level sweep (open run swept;
terminal, already-skipped and kept runs untouched) and a concrete
component-level sweep. -/
theorem claim_C5_witness :
    (([egRunOpen, egRunDone, egRunSkipped, egRunKept].map
        EnvironmentReconcile.reconcileId).Nodup
      ∧ sweepEnvironment [egRunOpen, egRunDone, egRunSkipped, egRunKept] 1 2
          egEnv [9]
        = [egRunOpen, egRunDone, egRunSkipped, egRunKept].map fun r =>
            if r.endDateTime = none ∧ r.status ≠ "skipped_reconcile"
                ∧ r.reconcileId ∉ [9] ∧ r.teamId = 2 ∧ r.orgId = 1
                ∧ r.envId = egEnv.id
            then { r with status := "skipped_reconcile" } else r)
    ∧ (([egCompRunOpen, egCompRunKept].map
        ComponentReconcile.reconcileId).Nodup
      ∧ sweepComponent [egCompRunOpen, egCompRunKept] 1 egParentRecon
          egComp1 [12]
        = [egCompRunOpen, egCompRunKept].map fun r =>
            if r.componentId = egComp1.id ∧ r.endDateTime = none
                ∧ r.status ≠ "skipped_reconcile" ∧ r.reconcileId ∉ [12]
                ∧ r.envReconId = egParentRecon.reconcileId ∧ r.orgId = 1
            then { r with status := "skipped_reconcile" } else r) :=
  ⟨⟨by decide,
    claim_C5.1 [egRunOpen, egRunDone, egRunSkipped, egRunKept] 1 2 egEnv [9]
      (by decide)⟩,
   ⟨by decide,
    claim_C5.2 [egCompRunOpen, egCompRunKept] 1 egParentRecon egComp1 [12]
      (by decide)⟩⟩

/-- C6: the bulk updates change only the `status` field — every other
field of every entry (in particular `endDateTime`) keeps its value, and
every entry's `status` becomes the given one. -/
theorem claim_C6 :
    (∀ (entries : List EnvironmentReconcile) (status : String),
      (ReconciliationService.bulkUpdateEnvironmentEntries entries
          status).map (fun e => (e.reconcileId, e.envId, e.teamId, e.orgId,
            e.dag, e.startDateTime, e.endDateTime, e.errorMessage, e.gitSha,
            e.estimatedCost, e.componentReconciles))
        = entries.map (fun e => (e.reconcileId, e.envId, e.teamId, e.orgId,
            e.dag, e.startDateTime, e.endDateTime, e.errorMessage, e.gitSha,
            e.estimatedCost, e.componentReconciles))
      ∧ (ReconciliationService.bulkUpdateEnvironmentEntries entries
          status).map EnvironmentReconcile.status
        = entries.map fun _ => status)
    ∧ (∀ (entries : List ComponentReconcile) (status : String),
      (ReconciliationService.bulkUpdateComponentEntries entries status).map
          (fun e => (e.reconcileId, e.componentId, e.envReconId, e.orgId,
            e.startDateTime, e.endDateTime, e.estimatedCost, e.isSkipped))
        = entries.map (fun e => (e.reconcileId, e.componentId, e.envReconId,
            e.orgId, e.startDateTime, e.endDateTime, e.estimatedCost,
            e.isSkipped))
      ∧ (ReconciliationService.bulkUpdateComponentEntries entries
          status).map ComponentReconcile.status
        = entries.map fun _ => status) := by
  refine ⟨fun entries status => ⟨?_, ?_⟩, fun entries status => ⟨?_, ?_⟩⟩ <;>
    (simp only [ReconciliationService.bulkUpdateEnvironmentEntries,
      ReconciliationService.bulkUpdateComponentEntries, List.map_map]
     exact List.map_congr_left fun e _ => rfl)

/-! ## Cost aggregation lemmas -/

/-- The cost loop, started from any accumulator, adds the sum of the
per-component contributions: a component's latest run's cost when positive,
else 0 (a missing latest run contributes 0). -/
lemma foldl_cost (l : List Component) : ∀ a : ℚ,
    l.foldl
      (fun acc comp =>
        match comp.latestCompRecon with
        | some r => if 0 < r.estimatedCost then acc + r.estimatedCost
                    else acc
        | none => acc) a
    = a + (l.map fun comp =>
        match comp.latestCompRecon with
        | some r => if 0 < r.estimatedCost then r.estimatedCost else (0 : ℚ)
        | none => (0 : ℚ)).sum := by
  induction l with
  | nil => intro a; simp
  | cons c l ih =>
    intro a
    cases hc : c.latestCompRecon with
    | none => simp only [List.foldl_cons, List.map_cons, List.sum_cons, hc]
              rw [ih]; ring
    | some r =>
      by_cases h : 0 < r.estimatedCost <;>
        · simp only [List.foldl_cons, List.map_cons, List.sum_cons, hc, h,
            if_true, if_false, reduceIte]
          rw [ih]; ring

/-- C7: the recompute sets `estimatedCost` to the sum over the
environment's components of the latest run's cost when positive and 0
otherwise (missing latest run contributes 0), and the recompute is
idempotent: applying it a second time with no data change is a no-op. -/
theorem claim_C7 :
    (∀ comps : List Component,
      updateCostLoop comps
        = (comps.map fun comp =>
            match comp.latestCompRecon with
            | some r => if 0 < r.estimatedCost then r.estimatedCost
                        else (0 : ℚ)
            | none => (0 : ℚ)).sum)
    ∧ (∀ (env : Environment) (saved : EnvironmentReconcile),
        ReconciliationService.updateCost env = some saved →
        saved.estimatedCost = updateCostLoop env.components)
    ∧ (∀ (env env' : Environment), applyUpdateCost env = some env' →
        applyUpdateCost env' = some env') := by
  refine ⟨?_, ?_, ?_⟩
  · intro comps
    simpa using foldl_cost comps 0
  · intro env saved h
    cases henv : env.latestEnvRecon with
    | none => simp [ReconciliationService.updateCost, henv] at h
    | some envRecon =>
      simp only [ReconciliationService.updateCost, henv,
        Option.some.injEq] at h
      rw [← h]
  · intro env env' h
    cases henv : env.latestEnvRecon with
    | none => simp [applyUpdateCost, ReconciliationService.updateCost,
        henv] at h
    | some envRecon =>
      simp only [applyUpdateCost, ReconciliationService.updateCost, henv,
        Option.map_some', Option.some.injEq] at h
      subst h
      simp [applyUpdateCost, ReconciliationService.updateCost]

/-- Witness for C7: on latest costs [10, -5, 0, 7.5] plus a component
without a latest run the recompute yields 17.5, and recomputing again is a
no-op. -/
theorem claim_C7_witness :
    updateCostLoop egCostEnv.components = 35/2
    ∧ ReconciliationService.updateCost egCostEnv = some egSavedRecon
    ∧ egSavedRecon.estimatedCost = updateCostLoop egCostEnv.components
    ∧ applyUpdateCost egCostEnv = some egCostEnvAfter
    ∧ applyUpdateCost egCostEnvAfter = some egCostEnvAfter :=
  have hloop : updateCostLoop egCostComps = 35/2 := by
    norm_num [updateCostLoop, egCostComps, egLatestCost10, egLatestCostNeg,
      egLatestCost0, egLatestCost75]
  have hsave : ReconciliationService.updateCost egCostEnv
      = some egSavedRecon := by
    simp only [ReconciliationService.updateCost, egCostEnv]
    rw [hloop]
    rfl
  have happly : applyUpdateCost egCostEnv = some egCostEnvAfter := by
    simp only [applyUpdateCost, hsave, Option.map_some']
    rfl
  ⟨hloop, hsave, claim_C7.2.1 egCostEnv egSavedRecon hsave, happly,
    claim_C7.2.2 egCostEnv egCostEnvAfter happly⟩

/-- C8: the cost write targets the environment's current latest
reconciliation only — the saved row has its `componentReconciles`
collection removed, carries the recomputed `estimatedCost`, and every
other field is exactly the latest reconciliation's. -/
theorem claim_C8 (env : Environment) (envRecon : EnvironmentReconcile)
    (h : env.latestEnvRecon = some envRecon) :
    ∃ saved, ReconciliationService.updateCost env = some saved
      ∧ saved.componentReconciles = none
      ∧ saved.estimatedCost = updateCostLoop env.components
      ∧ saved.reconcileId = envRecon.reconcileId
      ∧ saved.envId = envRecon.envId
      ∧ saved.teamId = envRecon.teamId
      ∧ saved.orgId = envRecon.orgId
      ∧ saved.status = envRecon.status
      ∧ saved.dag = envRecon.dag
      ∧ saved.startDateTime = envRecon.startDateTime
      ∧ saved.endDateTime = envRecon.endDateTime
      ∧ saved.errorMessage = envRecon.errorMessage
      ∧ saved.gitSha = envRecon.gitSha :=
  ⟨{ envRecon with
      componentReconciles := none
      estimatedCost := updateCostLoop env.components },
    by simp [ReconciliationService.updateCost, h], rfl, rfl, rfl, rfl, rfl,
    rfl, rfl, rfl, rfl, rfl, rfl, rfl⟩

/-- Witness for C8: the concrete cost environment's write-back saves
exactly the children-free, recomputed row. -/
theorem claim_C8_witness :
    egCostEnv.latestEnvRecon = some egParentRecon
    ∧ ∃ saved, ReconciliationService.updateCost egCostEnv = some saved
      ∧ saved.componentReconciles = none
      ∧ saved.estimatedCost = updateCostLoop egCostEnv.components
      ∧ saved.reconcileId = egParentRecon.reconcileId
      ∧ saved.envId = egParentRecon.envId
      ∧ saved.teamId = egParentRecon.teamId
      ∧ saved.orgId = egParentRecon.orgId
      ∧ saved.status = egParentRecon.status
      ∧ saved.dag = egParentRecon.dag
      ∧ saved.startDateTime = egParentRecon.startDateTime
      ∧ saved.endDateTime = egParentRecon.endDateTime
      ∧ saved.errorMessage = egParentRecon.errorMessage
      ∧ saved.gitSha = egParentRecon.gitSha :=
  ⟨rfl, claim_C8 egCostEnv egParentRecon rfl⟩

/-! ## Latest-run resolver lemmas -/

/-- The order `startLt` is irreflexive. -/
lemma startLt_irrefl (a : Option Nat) : startLt a a = false := by
  cases a <;> simp [startLt]

/-- The order `startLt` is transitive. -/
lemma startLt_trans {a b c : Option Nat} (h1 : startLt a b = true)
    (h2 : startLt b c = true) : startLt a c = true := by
  match a, b, c with
  | _, none, _ => simp [startLt] at h1
  | _, some _, none => simp [startLt] at h2
  | none, some _, some _ => simp [startLt]
  | some a, some b, some c =>
    simp only [startLt, decide_eq_true_eq] at h1 h2 ⊢
    omega

/-- From `a < b` and `¬ c < b` conclude `a < c` (the order on nullable
start times is total). -/
lemma startLt_of_lt_of_not_lt {a b c : Option Nat}
    (h1 : startLt a b = true) (h2 : startLt c b = false) :
    startLt a c = true := by
  match a, b, c with
  | _, none, _ => simp [startLt] at h1
  | none, some _, none => simp [startLt] at h2
  | some _, some _, none => simp [startLt] at h2
  | none, some _, some _ => simp [startLt]
  | some a, some b, some c =>
    simp only [startLt, decide_eq_true_eq, decide_eq_false_iff_not]
      at h1 h2 ⊢
    omega

/-- A fold of `pickLatest` started from a row never comes back empty. -/
lemma foldl_pickLatest_ne_none :
    ∀ (l : List ComponentReconcile) (b : ComponentReconcile),
      l.foldl pickLatest (some b) ≠ none := by
  intro l
  induction l with
  | nil => intro b h; exact Option.noConfusion h
  | cons x xs ih =>
    intro b
    simp only [List.foldl_cons, pickLatest]
    by_cases hbx : startLt b.startDateTime x.startDateTime = true
    · rw [if_pos hbx]; exact ih x
    · rw [if_neg hbx]; exact ih b

/-- The fold's result is the seed or one of the folded rows. -/
lemma foldl_pickLatest_mem :
    ∀ (l : List ComponentReconcile) (b r : ComponentReconcile),
      l.foldl pickLatest (some b) = some r → r = b ∨ r ∈ l := by
  intro l
  induction l with
  | nil =>
    intro b r h
    exact Or.inl (Option.some.inj h).symm
  | cons x xs ih =>
    intro b r h
    simp only [List.foldl_cons, pickLatest] at h
    by_cases hbx : startLt b.startDateTime x.startDateTime = true
    · rw [if_pos hbx] at h
      rcases ih x r h with h' | h'
      · exact Or.inr (h' ▸ List.mem_cons_self x xs)
      · exact Or.inr (List.mem_cons_of_mem x h')
    · rw [if_neg hbx] at h
      rcases ih b r h with h' | h'
      · exact Or.inl h'
      · exact Or.inr (List.mem_cons_of_mem x h')

/-- The fold's result starts no earlier than the seed and than every
folded row. -/
lemma foldl_pickLatest_max :
    ∀ (l : List ComponentReconcile) (b r : ComponentReconcile),
      l.foldl pickLatest (some b) = some r →
      startLt r.startDateTime b.startDateTime = false
        ∧ ∀ x ∈ l, startLt r.startDateTime x.startDateTime = false := by
  intro l
  induction l with
  | nil =>
    intro b r h
    cases Option.some.inj h
    exact ⟨startLt_irrefl b.startDateTime, by simp⟩
  | cons x xs ih =>
    intro b r h
    simp only [List.foldl_cons, pickLatest] at h
    by_cases hbx : startLt b.startDateTime x.startDateTime = true
    · rw [if_pos hbx] at h
      obtain ⟨hrx, hall⟩ := ih x r h
      have hrb : startLt r.startDateTime b.startDateTime = false := by
        cases hrbc : startLt r.startDateTime b.startDateTime with
        | false => rfl
        | true =>
          have htrx := startLt_trans hrbc hbx
          rw [hrx] at htrx
          exact Bool.noConfusion htrx
      exact ⟨hrb, fun y hy => by
        rcases List.mem_cons.mp hy with h' | h'
        · rw [h']; exact hrx
        · exact hall y h'⟩
    · rw [if_neg hbx] at h
      obtain ⟨hrb, hall⟩ := ih b r h
      have hbxf : startLt b.startDateTime x.startDateTime = false :=
        eq_false_of_ne_true hbx
      have hrx : startLt r.startDateTime x.startDateTime = false := by
        cases hrxc : startLt r.startDateTime x.startDateTime with
        | false => rfl
        | true =>
          have htrb := startLt_of_lt_of_not_lt hrxc hbxf
          rw [hrb] at htrb
          exact Bool.noConfusion htrb
      exact ⟨hrb, fun y hy => by
        rcases List.mem_cons.mp hy with h' | h'
        · rw [h']; exact hrx
        · exact hall y h'⟩

/-- The tri-state `isSkipped` filter accepts exactly the rows not flagged
`true`. -/
lemma isSkippedNullOrFalse_iff (o : Option Bool) :
    isSkippedNullOrFalse o = true ↔ o ≠ some true := by
  cases o with
  | none => simp [isSkippedNullOrFalse]
  | some b => cases b <;> simp [isSkippedNullOrFalse]

/-- The resolver's row filter, spelled as the claim reads. -/
lemma eligibleLatest_iff (orgId : Nat) (comp : Component)
    (r : ComponentReconcile) :
    eligibleLatest orgId comp r = true ↔
      (r.componentId = comp.id ∧ r.orgId = orgId
        ∧ List.isPrefixOf "skipped".data r.status.data = false
        ∧ r.status ≠ "waiting_for_parent" ∧ r.isSkipped ≠ some true) := by
  simp [eligibleLatest, meaningfulStatus, isSkippedNullOrFalse_iff,
    and_assoc]

/-- C9: a `some` result of the resolver is a stored row of the component
within the organization whose status does not start with `skipped` and is
not `waiting_for_parent`, whose `isSkipped` flag is not set to true, and
which starts no earlier than every such row; the result is `none` exactly
when no such row exists; on runs [`skipped_timeout`, `waiting_for_parent`,
`succeeded`, `failed`] at t1<t2<t3<t4 it returns the `failed` run. -/
theorem claim_C9 :
    (∀ (store : List ComponentReconcile) (orgId : Nat) (comp : Component)
        (r : ComponentReconcile),
      ReconciliationService.getLatestCompReconcile store orgId comp
          = some r →
        r ∈ store
        ∧ r.componentId = comp.id ∧ r.orgId = orgId
        ∧ List.isPrefixOf "skipped".data r.status.data = false
        ∧ r.status ≠ "waiting_for_parent" ∧ r.isSkipped ≠ some true
        ∧ (∀ x ∈ store, x.componentId = comp.id → x.orgId = orgId →
            List.isPrefixOf "skipped".data x.status.data = false →
            x.status ≠ "waiting_for_parent" → x.isSkipped ≠ some true →
            startLt r.startDateTime x.startDateTime = false))
    ∧ (∀ (store : List ComponentReconcile) (orgId : Nat) (comp : Component),
      ReconciliationService.getLatestCompReconcile store orgId comp = none ↔
        ∀ x ∈ store, ¬(x.componentId = comp.id ∧ x.orgId = orgId
          ∧ List.isPrefixOf "skipped".data x.status.data = false
          ∧ x.status ≠ "waiting_for_parent" ∧ x.isSkipped ≠ some true))
    ∧ ReconciliationService.getLatestCompReconcile
        [egRunT1, egRunT2, egRunT3, egRunT4] 1 egComp1 = some egRunT4 := by
  refine ⟨?_, ?_, by decide⟩
  · intro store orgId comp r h
    simp only [ReconciliationService.getLatestCompReconcile] at h
    cases hl : store.filter (eligibleLatest orgId comp) with
    | nil => rw [hl] at h; simp at h
    | cons x xs =>
      rw [hl] at h
      simp only [List.foldl_cons, pickLatest] at h
      have hrl : r ∈ store.filter (eligibleLatest orgId comp) := by
        rw [hl]
        rcases foldl_pickLatest_mem xs x r h with h' | h'
        · rw [h']; exact List.mem_cons_self x xs
        · exact List.mem_cons_of_mem x h'
      have hrstore := List.mem_of_mem_filter hrl
      obtain ⟨p1, p2, p3, p4, p5⟩ :=
        (eligibleLatest_iff orgId comp r).mp (List.mem_filter.mp hrl).2
      refine ⟨hrstore, p1, p2, p3, p4, p5, ?_⟩
      intro y hy h1 h2 h3 h4 h5
      have hyf : y ∈ store.filter (eligibleLatest orgId comp) :=
        List.mem_filter.mpr
          ⟨hy, (eligibleLatest_iff orgId comp y).mpr ⟨h1, h2, h3, h4, h5⟩⟩
      rw [hl] at hyf
      rcases List.mem_cons.mp hyf with h' | h'
      · rw [h']; exact (foldl_pickLatest_max xs x r h).1
      · exact (foldl_pickLatest_max xs x r h).2 y h'
  · intro store orgId comp
    constructor
    · intro h x hx hprops
      have hxf : x ∈ store.filter (eligibleLatest orgId comp) :=
        List.mem_filter.mpr
          ⟨hx, (eligibleLatest_iff orgId comp x).mpr hprops⟩
      simp only [ReconciliationService.getLatestCompReconcile] at h
      cases hl : store.filter (eligibleLatest orgId comp) with
      | nil => rw [hl] at hxf; simp at hxf
      | cons z zs =>
        rw [hl] at h
        simp only [List.foldl_cons, pickLatest] at h
        exact foldl_pickLatest_ne_none zs z h
    · intro hall
      have hnil : store.filter (eligibleLatest orgId comp) = [] :=
        List.filter_eq_nil_iff.mpr fun x hx helig =>
          hall x hx ((eligibleLatest_iff orgId comp x).mp helig)
      simp only [ReconciliationService.getLatestCompReconcile, hnil,
        List.foldl_nil]

/-- Witness for C9: on the four-run store the resolver returns the
`failed` run at t4, which is eligible and starts no earlier than every
eligible run. -/
theorem claim_C9_witness :
    ReconciliationService.getLatestCompReconcile
        [egRunT1, egRunT2, egRunT3, egRunT4] 1 egComp1 = some egRunT4
    ∧ (egRunT4 ∈ [egRunT1, egRunT2, egRunT3, egRunT4]
      ∧ egRunT4.componentId = egComp1.id ∧ egRunT4.orgId = 1
      ∧ List.isPrefixOf "skipped".data egRunT4.status.data = false
      ∧ egRunT4.status ≠ "waiting_for_parent"
      ∧ egRunT4.isSkipped ≠ some true
      ∧ (∀ x ∈ [egRunT1, egRunT2, egRunT3, egRunT4],
          x.componentId = egComp1.id → x.orgId = 1 →
          List.isPrefixOf "skipped".data x.status.data = false →
          x.status ≠ "waiting_for_parent" → x.isSkipped ≠ some true →
          startLt egRunT4.startDateTime x.startDateTime = false)) :=
  ⟨by decide,
    claim_C9.1 [egRunT1, egRunT2, egRunT3, egRunT4] 1 egComp1 egRunT4
      (by decide)⟩
